import Mathlib

/-!
A shallow embedding in Lean 4 of `consensus/tbft/node.go` from
truechain-engineering-code: the committee registry (`Node`), the per
committee `service` with its node table, the endpoint admission logic
(`service.putNodes`), the connection driver (`updateNodes` / `connTo`)
and the registry operations (`PutCommittee`, `PutNodes`, `Notify`,
`UpdateCommittee`, `GetCommitteeStatus`), together with theorems about
admission, resolution, dialing and lifecycle behaviour.

External collaborators (go-ethereum crypto, the tbft `types` package, the
p2p transport) are not part of the translated file; they are modelled as
explicit parameters or as small state components, following the
repository specification where the collaborator behaviour matters.
-/

namespace Tbft

/-- Serialized public key bytes (the `Publickey []byte` field of
`types.CommitteeNode`), abstracted to a single value. -/
abbrev PubBytes := Nat

/-- A parsed ECDSA public key, abstracted to a single value. -/
abbrev PubKey := Nat

/-- A fixed length account address, abstracted to a single value. -/
abbrev Address := Nat

/-- A p2p identity: the string `hex.EncodeToString(address[:])`, modelled as
the list of base 16 digits of the address value. -/
abbrev P2pID := List Nat

/-- Fuel driven base 16 digit expansion; the first argument is fuel, and
`toHexAux n n` is total because the quotient shrinks at every step. -/
def toHexAux : Nat → Nat → List Nat
  | _, 0 => []
  | 0, _ + 1 => []
  | fuel + 1, n + 1 => ((n + 1) % 16) :: toHexAux fuel ((n + 1) / 16)

/-- Models `hex.EncodeToString(address[:])`: the digit expansion of the
address value. -/
def hexEncodeToString (a : Address) : P2pID := toHexAux a a

/-- Evaluates a base 16 digit list back to the encoded value. -/
def fromHexDigits : List Nat → Nat
  | [] => 0
  | d :: ds => d + 16 * fromHexDigits ds

/-- Models `hex.DecodeString`: fails exactly when some character of the
string is not a hex digit. -/
def hexDecodeString (s : P2pID) : Option Address :=
  if s.all (fun d => d < 16) then some (fromHexDigits s) else none

/-- Association list lookup, the model of reading a Go map: the tables
`service.nodeTable` and `Node.services` are Go maps and are embedded as
association lists with map semantics (one binding per key). -/
def alookup {α β : Type} [DecidableEq α] : List (α × β) → α → Option β
  | [], _ => none
  | (k1, v) :: t, k => if k1 = k then some v else alookup t k

/-- Association list write, the model of `m[k] = v` on a Go map: replaces
the binding when the key is present and appends it otherwise. -/
def ainsert {α β : Type} [DecidableEq α] : List (α × β) → α → β → List (α × β)
  | [], k, v => [(k, v)]
  | (k1, v1) :: t, k, v => if k1 = k then (k, v) :: t else (k1, v1) :: ainsert t k v

/-- Association list delete, the model of `delete(m, k)` on a Go map. -/
def aerase {α β : Type} [DecidableEq α] : List (α × β) → α → List (α × β)
  | [], _ => []
  | (k1, v1) :: t, k => if k1 = k then aerase t k else (k1, v1) :: aerase t k

/-- Number of bindings for a key in an association list. -/
def acount {α β : Type} [DecidableEq α] : List (α × β) → α → Nat
  | [], _ => 0
  | (k1, _) :: t, k => (if k1 = k then 1 else 0) + acount t k

/-- Opaque cryptographic collaborators, out of scope in the repository and
consumed as pure functions: `crypto.UnmarshalPubkey` (parsing serialized
key bytes, fallible), `crypto.PubkeyToAddress` (also the address derivation
used by `tcrypto.PubKeyTrue(...).Address()`), and `crypto.FromECDSAPub`
(serialization). -/
structure Crypto where
  unmarshalPubkey : PubBytes → Option PubKey
  pubkeyToAddress : PubKey → Address
  fromECDSAPub : PubKey → PubBytes

/-- Modelled from the spec: `ttypes.Validator` (not under the translated
sources) is a public key with a voting power. -/
structure Validator where
  pubKey : PubKey
  power : Int
deriving DecidableEq

/-- Modelled from the spec: `ttypes.ValidatorSet` is an ordered collection
of validators. -/
abbrev ValidatorSet := List Validator

/-- Modelled from the spec: `ValidatorSet.HasAddress` decides whether some
validator of the set has the given address. -/
def hasAddress (c : Crypto) (vs : ValidatorSet) (a : Address) : Bool :=
  vs.any (fun v => c.pubkeyToAddress v.pubKey == a)

/-- Model of `p2p.NetAddress` as built by
`p2p.NewNetAddressString(p2p.IDAddressString(id, "ip:port"))`; the parse
error at that call site is ignored by the source, and the parse is modelled
as always succeeding. -/
structure NetAddress where
  id : P2pID
  ip : String
  port : Nat
deriving DecidableEq

/-- The `nodeInfo` record of node.go (field spelling kept, including the
`Adrress` typo). -/
structure nodeInfo where
  ID : P2pID
  Adrress : NetAddress
  IP : String
  Port : Nat
  Enable : Bool
deriving DecidableEq

/-- The fields of `types.CommitteeNode` read by node.go: declared IP, the
two declared ports and the serialized public key. -/
structure CommitteeNode where
  IP : String
  Port : Nat
  Port2 : Nat
  Publickey : PubBytes
deriving DecidableEq

/-- The fields of `types.CommitteeMember` read by node.go: the parsed
public key (the `Flag` field is only read by
`makeCommitteeMembersForUpdateCommittee`, which is dead code here). -/
structure CommitteeMember where
  Publickey : PubKey
deriving DecidableEq

/-- The fields of `types.CommitteeInfo` read by node.go. -/
structure CommitteeInfo where
  Id : Option Nat
  StartHeight : Nat
  Members : List CommitteeMember
  BackMembers : List CommitteeMember
deriving DecidableEq

/-- Modelled from the spec: one call of
`healthMgr.UpdataHealthInfo(id, ip, port, pk)`; the health manager is an
external collaborator and is embedded as the log of updates it received. -/
structure HealthEvent where
  id : P2pID
  ip : String
  port : Nat
  pubkey : PubBytes
deriving DecidableEq

/-- The errors returned by node.go, one constructor per `errors.New` call
site. -/
inductive TbftError where
  | wrongParams
  | repeatID (id : Nat)
  | nilState
  | nilCommitteeMembers
  | wrongCommitteeID (id : Nat)
  | wrongID (id : Nat)
  | serviceNotFound
  | eventBusStartFailed
  | transportStartFailed
deriving DecidableEq

/-- The per committee `service` of node.go. The collaborator handles are
replaced by the data this layer reads or writes through them:
`saValidators` is `s.sa.GetValidator()`, `csValidators` is
`s.consensusState.Validators`, `health`, `workHealth`, `backHealth` and
`healthStarted` are the log of the health manager collaborator, `privAddr`
is the address of `s.sa.Priv` (none while the private validator is unset),
`busRunning` and `running` are the running flags of the event bus and of
the switch, `updateSignaled` records a pending `true` on `s.updateChan`,
and `eventBusFails` / `swFails` model whether the corresponding
collaborator `Start()` call would fail. -/
structure service where
  saValidators : ValidatorSet
  csValidators : ValidatorSet
  nodeTable : List (P2pID × Option nodeInfo)
  health : List HealthEvent
  workHealth : List P2pID
  backHealth : List P2pID
  healthStarted : Bool
  privAddr : Option Address
  busRunning : Bool
  running : Bool
  updateSignaled : Bool
  eventBusFails : Bool
  swFails : Bool
deriving DecidableEq

/-- The environment a fresh service is built in: the crypto collaborators
and the failure behaviour of the collaborators created by
`newNodeService`. -/
structure Env where
  crypto : Crypto
  eventBusFails : Bool
  swFails : Bool

/-- Model of `newNodeService`: a fresh service with no node table, a fresh
health manager and stopped collaborators (`cid` is only passed to the
health manager constructor). -/
def newNodeService (env : Env) (vals : ValidatorSet) (cid : Nat) : service :=
  { saValidators := vals
    csValidators := vals
    nodeTable := []
    health := []
    workHealth := []
    backHealth := []
    healthStarted := false
    privAddr := none
    busRunning := false
    running := false
    updateSignaled := false
    eventBusFails := env.eventBusFails
    swFails := env.swFails }

/-- The port selected by the committee id parity rule of
`service.putNodes`: `port := node.Port2; if cid % 2 == 0 { port = node.Port }`. -/
def parityPort (cid : Nat) (node : CommitteeNode) : Nat :=
  if cid % 2 = 0 then node.Port else node.Port2

/-- Whether a `putNodes` candidate passes both checks of the admission
path: its key bytes unmarshal, and the derived address is in the validator
set. -/
def candidateValid (c : Crypto) (vs : ValidatorSet) (node : CommitteeNode) : Bool :=
  match c.unmarshalPubkey node.Publickey with
  | none => false
  | some pub => hasAddress c vs (c.pubkeyToAddress pub)

/-- The p2p identity a `putNodes` candidate derives to (junk value when the
key bytes do not unmarshal, in which case the candidate is skipped before
the identity is used). -/
def candidateID (c : Crypto) (node : CommitteeNode) : P2pID :=
  match c.unmarshalPubkey node.Publickey with
  | none => []
  | some pub => hexEncodeToString (c.pubkeyToAddress pub)

/-- The state threaded through the `putNodes` loop: the node table, the
health manager log, and the `update` flag. -/
structure PNState where
  table : List (P2pID × Option nodeInfo)
  health : List HealthEvent
  update : Bool
deriving DecidableEq

/-- One iteration of the loop of `service.putNodes` (lines 146 to 178 of
node.go): unmarshal the key (`continue` on error), check the derived
address against `s.sa.GetValidator()` (`continue` when absent), select the
port by committee id parity, and write the resolved record only when the
table holds a nil placeholder for the identity; the health manager is
updated for every candidate that passed both checks. -/
def putNodesStep (c : Crypto) (vs : ValidatorSet) (cid : Nat)
    (st : PNState) (node : CommitteeNode) : PNState :=
  match c.unmarshalPubkey node.Publickey with
  | none => st
  | some pub =>
    let address := c.pubkeyToAddress pub
    if hasAddress c vs address then
      let port := parityPort cid node
      let id := hexEncodeToString address
      let addr : NetAddress := ⟨id, node.IP, port⟩
      let st1 :=
        match alookup st.table id with
        | some none =>
          { st with
              table := ainsert st.table id
                (some ⟨id, addr, node.IP, port, false⟩)
              update := true }
        | _ => st
      { st1 with health := st1.health ++ [⟨id, node.IP, port, node.Publickey⟩] }
    else st

/-- The whole candidate loop of `service.putNodes`. -/
def putNodesLoop (c : Crypto) (vs : ValidatorSet) (cid : Nat) :
    PNState → List CommitteeNode → PNState
  | st, [] => st
  | st, node :: rest => putNodesLoop c vs cid (putNodesStep c vs cid st node) rest

/-- Model of `service.putNodes` (node.go lines 137 to 183): early return on
a nil batch (indistinguishable from an empty one), run the candidate loop
under the service lock, and signal the connection driver when some entry
was newly resolved and the own private validator address is in
`s.consensusState.Validators`. -/
def service.putNodes (c : Crypto) (s : service) (cid : Nat)
    (nodes : List CommitteeNode) : service :=
  if nodes.isEmpty then s
  else
    let st := putNodesLoop c s.saValidators cid ⟨s.nodeTable, s.health, false⟩ nodes
    let signal := st.update &&
      (match s.privAddr with
       | some a => hasAddress c s.csValidators a
       | none => false)
    { s with
        nodeTable := st.table
        health := st.health
        updateSignaled := s.updateSignaled || signal }

/-- Model of `service.connTo`: return immediately when the entry is already
enabled, otherwise attempt the dial (the second component records that a
dial was attempted); on success flip `Enable` to true, on failure only
log. `dial` is the `sw.DialPeerWithAddress` collaborator, true meaning the
dial succeeded. -/
def connTo (dial : NetAddress → Bool) (node : nodeInfo) : nodeInfo × Bool :=
  if node.Enable then (node, false)
  else if dial node.Adrress then ({ node with Enable := true }, true)
  else (node, true)

/-- Model of `service.updateNodes` (node.go lines 196 to 205). For each
entry the source first evaluates `hex.DecodeString(string(v.ID))`, which
dereferences `v`; a nil entry therefore panics before the `v != nil`
conjunct of the guard is ever reached. The result is the list of
identities a dial was attempted for, in table order, paired with the
updated table, or `none` for the table when the pass panicked on a nil
entry. -/
def updateNodes (c : Crypto) (vs : ValidatorSet) (dial : NetAddress → Bool) :
    List (P2pID × Option nodeInfo) →
    List P2pID × Option (List (P2pID × Option nodeInfo))
  | [] => ([], some [])
  | (_, none) :: _ => ([], none)
  | (k, some v) :: rest =>
    let step :=
      match hexDecodeString v.ID with
      | none => (v, false)
      | some address =>
        if !v.Enable && hasAddress c vs address then connTo dial v
        else (v, false)
    let r := updateNodes c vs dial rest
    ((if step.2 then [k] else []) ++ r.1,
     (r.2).map (fun t => (k, some step.1) :: t))

/-- The identity of a committee member as computed by
`makeCommitteeMembers`: hex encoding of `tcrypto.PubKeyTrue(pk).Address()`
(the same address derivation as `crypto.PubkeyToAddress`). -/
def memberID (c : Crypto) (m : CommitteeMember) : P2pID :=
  hexEncodeToString (c.pubkeyToAddress m.Publickey)

/-- The table building loop of `makeCommitteeMembers`: write a nil
placeholder for every member identity, in member order. -/
def buildTab (c : Crypto) : List CommitteeMember →
    List (P2pID × Option nodeInfo) → List (P2pID × Option nodeInfo)
  | [], tab => tab
  | m :: ms, tab => buildTab c ms (ainsert tab (memberID c m) none)

/-- Model of `makeCommitteeMembers` (node.go lines 472 to 486): nil when
the member list is empty, otherwise a table with one nil placeholder per
member identity; no member is excluded, in particular not the local node.
The `ss == nil` guard of the source is dropped: the only caller passes a
freshly allocated service. -/
def makeCommitteeMembers (c : Crypto) (cid : Nat) (cmm : CommitteeInfo) :
    Option (List (P2pID × Option nodeInfo)) :=
  if cmm.Members.isEmpty then none
  else some (buildTab c cmm.Members [])

/-- Model of `MakeValidators` (node.go lines 453 to 471): nil when the id
is missing or the member list is empty, otherwise one validator of power 1
per member. -/
def MakeValidators (cmm : CommitteeInfo) : Option ValidatorSet :=
  match cmm.Id with
  | none => none
  | some _ =>
    if cmm.Members.isEmpty then none
    else some (cmm.Members.map (fun m => ⟨m.Publickey, 1⟩))

/-- Model of `pkToP2pID`: serialize the key, parse it back (empty identity
on parse failure) and hex encode the derived address. -/
def pkToP2pID (c : Crypto) (pk : PubKey) : P2pID :=
  match c.unmarshalPubkey (c.fromECDSAPub pk) with
  | none => []
  | some pub => hexEncodeToString (c.pubkeyToAddress pub)

/-- Model of `service.start` (node.go lines 74 to 124): start the event
bus (propagate its failure), bind the private validator of the local key
to the state agent, start the switch (propagate its failure), and launch
the driver loop. The listener address parity selection and the address
book registrations only touch external collaborators and are not part of
the state. The result pairs the mutated service (mutations before a
failure persist, as they do through the Go pointer) with the error, none
meaning success. -/
def service.start (c : Crypto) (selfPub : PubKey) (cid : Nat) (s : service) :
    service × Option TbftError :=
  if s.eventBusFails then (s, some .eventBusStartFailed)
  else
    let s1 := { s with busRunning := true, privAddr := some (c.pubkeyToAddress selfPub) }
    if s1.swFails then (s1, some .transportStartFailed)
    else ({ s1 with running := true }, none)

/-- Model of `service.stop` (node.go lines 125 to 133): when the switch is
running, terminate the driver loop, stop the health manager and the event
bus; in every case stop the switch. -/
def service.stop (s : service) : service :=
  if s.running then { s with busRunning := false, healthStarted := false, running := false }
  else s

/-- The committee registry `Node` of node.go: the local validator key, the
`services` map, and a trace of the committee ids whose `service.stop` was
invoked by `Notify(Stop)` (the stopped service itself is deleted from the
map, so the invocation is only observable through this trace). -/
structure Node where
  selfPub : PubKey
  services : List (Nat × service)
  stopped : List Nat
deriving DecidableEq

/-- Start is the notify action with value 0. -/
def Start : Nat := 0

/-- Stop is the notify action with value 1. -/
def Stop : Nat := 1

/-- Switch is the notify action with value 2. -/
def Switch : Nat := 2

/-- Model of `Node.Notify` (node.go lines 324 to 354). On `Start` with a
registered service, the source calls `server.start(id, n)` and ignores its
return value, so `Notify` answers nil whether or not the start succeeded;
on `Start` with an unknown id it returns the wrong committee id error. On
`Stop` it stops and deletes a registered service and is a silent no op on
an unknown id. `Switch` and any other action value return nil. -/
def Node.Notify (c : Crypto) (n : Node) (id : Nat) (action : Nat) :
    Except TbftError Node :=
  if action = Start then
    match alookup n.services id with
    | some server =>
      let r := service.start c n.selfPub id server
      Except.ok { n with services := ainsert n.services id r.1 }
    | none => Except.error (.wrongCommitteeID id)
  else if action = Stop then
    match alookup n.services id with
    | some server =>
      let _ := service.stop server
      Except.ok { n with
        services := aerase n.services id
        stopped := n.stopped ++ [id] }
    | none => Except.ok n
  else Except.ok n

/-- Model of `Node.PutCommittee` (node.go lines 357 to 414): reject a
missing id or an empty member list, reject a duplicate id, build the state
agent validators, build a fresh service, seed work health records for
every member except self and back health records for every back member,
start the health manager, seed the node table from `makeCommitteeMembers`
(stopping the half built service and failing when it is nil), and insert
the wired service into the registry. -/
def Node.PutCommittee (env : Env) (n : Node) (cmm : CommitteeInfo) :
    Except TbftError Node :=
  match cmm.Id with
  | none => Except.error .wrongParams
  | some i =>
    if cmm.Members.isEmpty then Except.error .wrongParams
    else if (alookup n.services i).isSome then Except.error (.repeatID i)
    else
      match MakeValidators cmm with
      | none => Except.error .nilState
      | some vals =>
        let sv := newNodeService env vals i
        let sv := { sv with
          workHealth :=
            (cmm.Members.filter (fun m => !(m.Publickey == n.selfPub))).map
              (fun m => pkToP2pID env.crypto m.Publickey)
          backHealth := cmm.BackMembers.map (fun m => pkToP2pID env.crypto m.Publickey)
          healthStarted := true }
        match makeCommitteeMembers env.crypto i cmm with
        | none =>
          let _ := service.stop sv
          Except.error .nilCommitteeMembers
        | some tab =>
          let sv := { sv with nodeTable := tab }
          Except.ok { n with services := ainsert n.services i sv }

/-- Model of `Node.PutNodes` (node.go lines 417 to 431): reject a missing
id or an empty batch, reject an unknown committee, otherwise forward to
the located service. -/
def Node.PutNodes (c : Crypto) (n : Node) (id : Option Nat)
    (nodes : List CommitteeNode) : Except TbftError Node :=
  match id with
  | none => Except.error .wrongParams
  | some i =>
    if nodes.isEmpty then Except.error .wrongParams
    else
      match alookup n.services i with
      | none => Except.error (.wrongID i)
      | some server =>
        Except.ok { n with services := ainsert n.services i (server.putNodes c i nodes) }

/-- Modelled from the spec: `consensusState.UpdateValidatorSet(info)` is
external to this layer; it rebuilds the validator set from the new
descriptor and decides (by its own logic, here the oracle argument
`stopSig`) whether the committee should halt, for example because the
local node was dropped from the active member list. -/
def UpdateValidatorSet (stopSig : Bool) (cmm : CommitteeInfo)
    (old : ValidatorSet) : Bool × ValidatorSet :=
  (stopSig, (MakeValidators cmm).getD old)

/-- Model of `Node.UpdateCommittee` (node.go lines 434 to 450): none when
the descriptor carries no id (the source dereferences `info.Id` and would
panic). For a registered service: update the validator set, stop the
service when the update signals it, signal the connection driver, forward
the new member and back member lists to the health manager, and keep the
service in the registry (the id is never deleted from `n.services` here).
Unknown committee yields the service not found error. -/
def Node.UpdateCommittee (c : Crypto) (stopSig : Bool) (n : Node)
    (cmm : CommitteeInfo) : Option (Except TbftError Node) :=
  match cmm.Id with
  | none => none
  | some i =>
    some
      (match alookup n.services i with
       | some sv =>
         let r := UpdateValidatorSet stopSig cmm sv.csValidators
         let sv := { sv with csValidators := r.2 }
         let sv := if r.1 then service.stop sv else sv
         let sv := { sv with
           updateSignaled := true
           workHealth := cmm.Members.map (fun m => pkToP2pID c m.Publickey)
           backHealth := cmm.BackMembers.map (fun m => pkToP2pID c m.Publickey) }
         Except.ok { n with services := ainsert n.services i sv }
       | none => Except.error .serviceNotFound)

/-- One committee section of the `GetCommitteeStatus` answer: the id, the
node table and (for the current committee only) the node count. -/
structure CommitteeSnap where
  id : Nat
  nodes : List (P2pID × Option nodeInfo)
  nodesCnt : Option Nat
deriving DecidableEq

/-- The `GetCommitteeStatus` answer: the current committee section and the
successor committee section, each present exactly when the corresponding
id is in the registry. The per height vote summary of the source is data
of the external consensus state and is not modelled. -/
structure CommitteeStatus where
  committeeNow : Option CommitteeSnap
  committeeNext : Option CommitteeSnap
deriving DecidableEq

/-- Model of `getCommittee`: registry lookup. -/
def getCommittee (n : Node) (cid : Nat) : Option service :=
  alookup n.services cid

/-- Model of `Node.GetCommitteeStatus` (node.go lines 535 to 557): fill the
current committee section from the service at `cid` and the successor
section from the service at `cid + 1`, independently. -/
def Node.GetCommitteeStatus (n : Node) (cid : Nat) : CommitteeStatus :=
  { committeeNow :=
      (getCommittee n cid).map (fun s => ⟨cid, s.nodeTable, some s.nodeTable.length⟩)
    committeeNext :=
      (getCommittee n (cid + 1)).map (fun s => ⟨cid + 1, s.nodeTable, none⟩) }

/-- Whether an `Except` answer is a success. -/
def exceptIsOk {ε α : Type} : Except ε α → Bool
  | .ok _ => true
  | .error _ => false

/-- A concrete crypto instantiation for evaluation: key bytes 0 are the one
malformed key, every other value parses to itself, and the address of a
key is the key value. -/
def cryptoEx : Crypto :=
  { unmarshalPubkey := fun b => if b = 0 then none else some b
    pubkeyToAddress := fun p => p
    fromECDSAPub := fun p => p }

/-- A concrete environment whose collaborators start without failure. -/
def envEx : Env := ⟨cryptoEx, false, false⟩

/-- A concrete validator set holding only the key 2. -/
def vsEx : ValidatorSet := [⟨2, 1⟩]

/-- A concrete loop state: an unresolved placeholder for address 2. -/
def stEx : PNState := ⟨[([2], none)], [], false⟩

/-- A candidate endpoint whose key bytes are malformed. -/
def badEx : CommitteeNode := ⟨"9.9.9.9", 1, 2, 0⟩

/-- A candidate endpoint for validator 2. -/
def goodEx : CommitteeNode := ⟨"1.2.3.4", 30303, 30304, 2⟩

/-- A baseline service fixture: validator set {2}, empty tables, stopped
collaborators that would start without failure. -/
def svBase : service :=
  { saValidators := [⟨2, 1⟩]
    csValidators := [⟨2, 1⟩]
    nodeTable := []
    health := []
    workHealth := []
    backHealth := []
    healthStarted := true
    privAddr := none
    busRunning := false
    running := false
    updateSignaled := false
    eventBusFails := false
    swFails := false }

/-- A resolved node table entry for identity [2]. -/
def infoEx : nodeInfo := ⟨[2], ⟨[2], "1.2.3.4", 30303⟩, "1.2.3.4", 30303, false⟩

/-- A service whose table already resolved identity [2]. -/
def svC2 : service := { svBase with nodeTable := [([2], some infoEx)] }

/-- A concrete validator set holding the keys 1 and 2. -/
def vsC3 : ValidatorSet := [⟨1, 1⟩, ⟨2, 1⟩]

/-- A resolved, not yet connected entry for validator 2. -/
def entryC3 : nodeInfo := ⟨[2], ⟨[2], "1.2.3.4", 30303⟩, "1.2.3.4", 30303, false⟩

/-- A node table holding a nil placeholder for validator 1 followed by the
resolved, dial eligible entry for validator 2. -/
def tabC3 : List (P2pID × Option nodeInfo) := [([1], none), ([2], some entryC3)]

/-- A three member committee descriptor with id 7; member key 1 is the
local node of `nodeC5`. -/
def cmmC5 : CommitteeInfo := ⟨some 7, 0, [⟨1⟩, ⟨2⟩, ⟨3⟩], []⟩

/-- An empty registry whose local key is 1. -/
def nodeC5 : Node := ⟨1, [], []⟩

/-- A single member committee descriptor with id 3 whose only member key 1
is the local node of `nodeC5`. -/
def cmmC6 : CommitteeInfo := ⟨some 3, 0, [⟨1⟩], []⟩

/-- A service whose event bus collaborator fails to start. -/
def svBusFail : service := { svBase with eventBusFails := true }

/-- A service whose transport switch collaborator fails to start. -/
def svSwFail : service := { svBase with swFails := true }

/-- A registry holding committee 7 with a failing event bus. -/
def nBusFail : Node := ⟨1, [(7, svBusFail)], []⟩

/-- A registry holding committee 7 with a failing transport switch. -/
def nSwFail : Node := ⟨1, [(7, svSwFail)], []⟩

/-- A registry holding one stopped committee 4. -/
def nC9 : Node := ⟨1, [(4, svBase)], []⟩

/-- A live service for committee 7 with one unresolved placeholder. -/
def svC10 : service :=
  { svBase with running := true, busRunning := true, nodeTable := [([2], none)] }

/-- A registry holding the live committee 7. -/
def nC10 : Node := ⟨1, [(7, svC10)], []⟩

/-- A descriptor for committee 7 whose member list no longer holds the
local key 1. -/
def cmmC10 : CommitteeInfo := ⟨some 7, 5, [⟨2⟩], []⟩

/-- Writing a key reads back the written value. -/
theorem alookup_ainsert_self {α β : Type} [DecidableEq α] :
    ∀ (l : List (α × β)) (k : α) (v : β), alookup (ainsert l k v) k = some v := by
  intro l
  induction l with
  | nil => intro k v; simp [ainsert, alookup]
  | cons p t ih =>
    intro k v
    obtain ⟨k1, v1⟩ := p
    by_cases hk : k1 = k
    · simp [ainsert, alookup, hk]
    · simp [ainsert, alookup, hk, ih]

/-- Writing a key leaves every other key unchanged. -/
theorem alookup_ainsert_ne {α β : Type} [DecidableEq α] :
    ∀ (l : List (α × β)) (k k1 : α) (v : β), k1 ≠ k →
      alookup (ainsert l k v) k1 = alookup l k1 := by
  intro l
  induction l with
  | nil =>
    intro k k1 v h
    have hne : ¬ k = k1 := fun hh => h hh.symm
    simp [ainsert, alookup, hne]
  | cons p t ih =>
    intro k k1 v h
    obtain ⟨k2, v2⟩ := p
    by_cases hk : k2 = k
    · subst hk
      have hne : ¬ k2 = k1 := fun hh => h hh.symm
      simp [ainsert, alookup, hne]
    · simp only [ainsert, if_neg hk, alookup]
      by_cases hk2 : k2 = k1
      · simp [hk2]
      · simp [hk2, ih _ _ _ h]

/-- Deleting a key makes the key unreadable. -/
theorem alookup_aerase_self {α β : Type} [DecidableEq α] :
    ∀ (l : List (α × β)) (k : α), alookup (aerase l k) k = none := by
  intro l
  induction l with
  | nil => intro k; rfl
  | cons p t ih =>
    intro k
    obtain ⟨k1, v1⟩ := p
    by_cases hk : k1 = k
    · simp [aerase, hk, ih]
    · simp [aerase, alookup, hk, ih]

/-- Writing an absent key appends the binding. -/
theorem ainsert_fresh {α β : Type} [DecidableEq α] :
    ∀ (l : List (α × β)) (k : α) (v : β), alookup l k = none →
      ainsert l k v = l ++ [(k, v)] := by
  intro l
  induction l with
  | nil => intro k v _; rfl
  | cons p t ih =>
    intro k v h
    obtain ⟨k1, v1⟩ := p
    by_cases hk : k1 = k
    · simp [alookup, hk] at h
    · simp [ainsert, hk, ih _ _ (by simpa [alookup, hk] using h)]

/-- Lookup walks past a prefix that misses the key. -/
theorem alookup_append_of_none {α β : Type} [DecidableEq α] :
    ∀ (l l2 : List (α × β)) (k : α), alookup l k = none →
      alookup (l ++ l2) k = alookup l2 k := by
  intro l
  induction l with
  | nil => intro l2 k _; rfl
  | cons p t ih =>
    intro l2 k h
    obtain ⟨k1, v1⟩ := p
    by_cases hk : k1 = k
    · simp [alookup, hk] at h
    · simp only [List.cons_append, alookup, if_neg hk]
      exact ih _ _ (by simpa [alookup, hk] using h)

/-- An absent key has no binding. -/
theorem acount_eq_zero {α β : Type} [DecidableEq α] :
    ∀ (l : List (α × β)) (k : α), alookup l k = none → acount l k = 0 := by
  intro l
  induction l with
  | nil => intro k _; rfl
  | cons p t ih =>
    intro k h
    obtain ⟨k1, v1⟩ := p
    by_cases hk : k1 = k
    · simp [alookup, hk] at h
    · simp [acount, hk, ih _ (by simpa [alookup, hk] using h)]

/-- Binding counts add over append. -/
theorem acount_append {α β : Type} [DecidableEq α] :
    ∀ (l1 l2 : List (α × β)) (k : α), acount (l1 ++ l2) k = acount l1 k + acount l2 k := by
  intro l1
  induction l1 with
  | nil => intro l2 k; simp [acount]
  | cons p t ih =>
    intro l2 k
    obtain ⟨k1, v1⟩ := p
    simp [acount, ih, Nat.add_assoc]

/-- Writing an absent key yields exactly one binding for it. -/
theorem acount_ainsert_fresh {α β : Type} [DecidableEq α]
    (l : List (α × β)) (k : α) (v : β) (h : alookup l k = none) :
    acount (ainsert l k v) k = 1 := by
  rw [ainsert_fresh _ _ _ h, acount_append, acount_eq_zero _ _ h]
  simp [acount]

/-- A candidate that fails key unmarshalling or the validator set check is
a no op for the whole loop state. -/
theorem putNodesStep_invalid (c : Crypto) (vs : ValidatorSet) (cid : Nat)
    (st : PNState) (node : CommitteeNode)
    (h : candidateValid c vs node = false) :
    putNodesStep c vs cid st node = st := by
  unfold putNodesStep
  cases hu : c.unmarshalPubkey node.Publickey with
  | none => rfl
  | some pub =>
    have ha : hasAddress c vs (c.pubkeyToAddress pub) = false := by
      simpa [candidateValid, hu] using h
    simp [ha]

/-- One step changes the table at most at the identity of a valid
candidate, and only on a nil placeholder. -/
theorem putNodesStep_table (c : Crypto) (vs : ValidatorSet) (cid : Nat)
    (st : PNState) (node : CommitteeNode) (k : P2pID) :
    alookup (putNodesStep c vs cid st node).table k = alookup st.table k
    ∨ (candidateValid c vs node = true ∧ k = candidateID c node
       ∧ alookup st.table k = some none) := by
  unfold putNodesStep
  cases hu : c.unmarshalPubkey node.Publickey with
  | none => exact Or.inl rfl
  | some pub =>
    by_cases ha : hasAddress c vs (c.pubkeyToAddress pub)
    · simp only [ha, if_true]
      cases hl : alookup st.table (hexEncodeToString (c.pubkeyToAddress pub)) with
      | none => left; simp [hl]
      | some v =>
        cases v with
        | none =>
          by_cases hk : hexEncodeToString (c.pubkeyToAddress pub) = k
          · right
            refine ⟨by simp [candidateValid, hu, ha], by simp [candidateID, hu, hk], ?_⟩
            rw [← hk]
            exact hl
          · left
            simp [hl, alookup_ainsert_ne _ _ _ _ (fun hh => hk hh.symm)]
        | some w => left; simp [hl]
    · simp [ha]

/-- One step never touches a resolved entry. -/
theorem putNodesStep_resolved (c : Crypto) (vs : ValidatorSet) (cid : Nat)
    (st : PNState) (node : CommitteeNode) (k : P2pID) (info : nodeInfo)
    (h : alookup st.table k = some (some info)) :
    alookup (putNodesStep c vs cid st node).table k = some (some info) := by
  rcases putNodesStep_table c vs cid st node k with h1 | ⟨_, _, h3⟩
  · rw [h1, h]
  · rw [h] at h3
    simp at h3

/-- A table change in one step pins down the candidate: it was valid and
the changed key is its identity. -/
theorem putNodesStep_changes (c : Crypto) (vs : ValidatorSet) (cid : Nat)
    (st : PNState) (node : CommitteeNode) (k : P2pID)
    (h : alookup (putNodesStep c vs cid st node).table k ≠ alookup st.table k) :
    candidateValid c vs node = true ∧ k = candidateID c node := by
  rcases putNodesStep_table c vs cid st node k with h1 | ⟨h1, h2, _⟩
  · exact absurd h1 h
  · exact ⟨h1, h2⟩

/-- A valid candidate always appends its health manager update, resolved
or not. -/
theorem putNodesStep_health_valid (c : Crypto) (vs : ValidatorSet) (cid : Nat)
    (st : PNState) (node : CommitteeNode)
    (h : candidateValid c vs node = true) :
    (putNodesStep c vs cid st node).health
      = st.health ++ [⟨candidateID c node, node.IP, parityPort cid node, node.Publickey⟩] := by
  unfold putNodesStep
  cases hu : c.unmarshalPubkey node.Publickey with
  | none => simp [candidateValid, hu] at h
  | some pub =>
    have ha : hasAddress c vs (c.pubkeyToAddress pub) = true := by
      simpa [candidateValid, hu] using h
    simp only [ha, if_true]
    cases hl : alookup st.table (hexEncodeToString (c.pubkeyToAddress pub)) with
    | none => simp [hl, candidateID, hu]
    | some v =>
      cases v with
      | none => simp [hl, candidateID, hu]
      | some w => simp [hl, candidateID, hu]

/-- One step only appends to the health manager log. -/
theorem putNodesStep_health_mono (c : Crypto) (vs : ValidatorSet) (cid : Nat)
    (st : PNState) (node : CommitteeNode) (e : HealthEvent)
    (h : e ∈ st.health) : e ∈ (putNodesStep c vs cid st node).health := by
  cases hv : candidateValid c vs node with
  | false => rw [putNodesStep_invalid c vs cid st node hv]; exact h
  | true =>
    rw [putNodesStep_health_valid c vs cid st node hv]
    exact List.mem_append_left _ h

/-- The candidate loop splits over batch concatenation. -/
theorem putNodesLoop_append (c : Crypto) (vs : ValidatorSet) (cid : Nat) :
    ∀ (xs ys : List CommitteeNode) (st : PNState),
      putNodesLoop c vs cid st (xs ++ ys)
        = putNodesLoop c vs cid (putNodesLoop c vs cid st xs) ys := by
  intro xs
  induction xs with
  | nil => intro ys st; rfl
  | cons x rest ih =>
    intro ys st
    simp only [List.cons_append, putNodesLoop]
    exact ih ys _

/-- The loop never touches a resolved entry. -/
theorem putNodesLoop_resolved (c : Crypto) (vs : ValidatorSet) (cid : Nat) :
    ∀ (ns : List CommitteeNode) (st : PNState) (k : P2pID) (info : nodeInfo),
      alookup st.table k = some (some info) →
      alookup (putNodesLoop c vs cid st ns).table k = some (some info) := by
  intro ns
  induction ns with
  | nil => intro st k info h; exact h
  | cons n rest ih =>
    intro st k info h
    exact ih _ _ _ (putNodesStep_resolved c vs cid st n k info h)

/-- The loop only appends to the health manager log. -/
theorem putNodesLoop_health_mono (c : Crypto) (vs : ValidatorSet) (cid : Nat) :
    ∀ (ns : List CommitteeNode) (st : PNState) (e : HealthEvent),
      e ∈ st.health → e ∈ (putNodesLoop c vs cid st ns).health := by
  intro ns
  induction ns with
  | nil => intro st e h; exact h
  | cons n rest ih =>
    intro st e h
    exact ih _ _ (putNodesStep_health_mono c vs cid st n e h)

/-- Every valid candidate of a batch gets its health manager update. -/
theorem putNodesLoop_health_valid (c : Crypto) (vs : ValidatorSet) (cid : Nat) :
    ∀ (ns : List CommitteeNode) (st : PNState) (node : CommitteeNode),
      node ∈ ns → candidateValid c vs node = true →
      (⟨candidateID c node, node.IP, parityPort cid node, node.Publickey⟩ : HealthEvent)
        ∈ (putNodesLoop c vs cid st ns).health := by
  intro ns
  induction ns with
  | nil => intro st node h; cases h
  | cons m rest ih =>
    intro st node hmem hv
    rcases List.mem_cons.mp hmem with rfl | h2
    · show _ ∈ (putNodesLoop c vs cid (putNodesStep c vs cid st node) rest).health
      apply putNodesLoop_health_mono
      rw [putNodesStep_health_valid c vs cid st node hv]
      exact List.mem_append_right _ (List.mem_singleton.mpr rfl)
    · exact ih _ _ h2 hv

/-- A table change across the loop pins down some valid candidate of the
batch whose identity is the changed key. -/
theorem putNodesLoop_changes (c : Crypto) (vs : ValidatorSet) (cid : Nat) :
    ∀ (ns : List CommitteeNode) (st : PNState) (k : P2pID),
      alookup (putNodesLoop c vs cid st ns).table k ≠ alookup st.table k →
      ∃ m, m ∈ ns ∧ candidateValid c vs m = true ∧ k = candidateID c m := by
  intro ns
  induction ns with
  | nil => intro st k h; exact absurd rfl h
  | cons n rest ih =>
    intro st k h
    simp only [putNodesLoop] at h
    by_cases h1 : alookup (putNodesStep c vs cid st n).table k = alookup st.table k
    · have h2 : alookup (putNodesLoop c vs cid (putNodesStep c vs cid st n) rest).table k
          ≠ alookup (putNodesStep c vs cid st n).table k := by
        rw [h1]
        exact h
      obtain ⟨m, hm, hvm, hk⟩ := ih _ _ h2
      exact ⟨m, List.mem_cons_of_mem _ hm, hvm, hk⟩
    · obtain ⟨hvn, hk⟩ := putNodesStep_changes c vs cid st n k h1
      exact ⟨n, List.mem_cons_self _ _, hvn, hk⟩

/-- With pairwise distinct member identities, the seeding loop writes one
nil placeholder per member, in member order. -/
theorem buildTab_eq (c : Crypto) :
    ∀ (ms : List CommitteeMember) (tab : List (P2pID × Option nodeInfo)),
      (∀ m ∈ ms, alookup tab (memberID c m) = none) →
      (ms.map (memberID c)).Nodup →
      buildTab c ms tab = tab ++ ms.map (fun m => (memberID c m, none)) := by
  intro ms
  induction ms with
  | nil => intro tab _ _; simp [buildTab]
  | cons m rest ih =>
    intro tab hfresh hnd
    have h0 : alookup tab (memberID c m) = none := hfresh m (List.mem_cons_self _ _)
    have hmap : ((m :: rest).map (memberID c)) = memberID c m :: rest.map (memberID c) := rfl
    rw [hmap] at hnd
    have hnotin : memberID c m ∉ rest.map (memberID c) := (List.nodup_cons.mp hnd).1
    have hnd2 : (rest.map (memberID c)).Nodup := (List.nodup_cons.mp hnd).2
    show buildTab c rest (ainsert tab (memberID c m) none) = _
    rw [ainsert_fresh _ _ _ h0]
    rw [ih (tab ++ [(memberID c m, none)]) ?fresh hnd2]
    · simp
    case fresh =>
      intro m2 hm2
      rw [alookup_append_of_none _ _ _ (hfresh m2 (List.mem_cons_of_mem _ hm2))]
      have hne2 : ¬ memberID c m = memberID c m2 := by
        intro hcontra
        exact hnotin (hcontra ▸ List.mem_map_of_mem _ hm2)
      simp [alookup, hne2]

/-- Stopping a service always leaves the switch stopped. -/
theorem service_stop_running (s : service) : (service.stop s).running = false := by
  unfold service.stop
  by_cases h : s.running
  · simp [h]
  · simp [h]

/-- C1: in `service.putNodes`, a candidate endpoint is admitted into the
node table only when the identity derived from its declared public key is
a member of the validator set; a candidate whose key is malformed or whose
derived identity is outside the set is skipped, leaves the node table
unchanged, and does not prevent the remaining candidates of the batch from
being processed. -/
theorem putNodes_validator_gate_c1 (c : Crypto) (vs : ValidatorSet) (cid : Nat)
    (st : PNState) (pre post : List CommitteeNode) (node : CommitteeNode)
    (h : candidateValid c vs node = false) :
    putNodesLoop c vs cid st (pre ++ node :: post) = putNodesLoop c vs cid st (pre ++ post)
    ∧ ∀ k, alookup (putNodesLoop c vs cid st (pre ++ node :: post)).table k
          ≠ alookup st.table k →
        ∃ m, m ∈ pre ++ post ∧ candidateValid c vs m = true ∧ k = candidateID c m := by
  have h1 : putNodesLoop c vs cid st (pre ++ node :: post)
      = putNodesLoop c vs cid st (pre ++ post) := by
    rw [putNodesLoop_append, putNodesLoop_append]
    simp only [putNodesLoop]
    rw [putNodesStep_invalid c vs cid _ node h]
  refine ⟨h1, fun k hk => ?_⟩
  rw [h1] at hk
  exact putNodesLoop_changes c vs cid (pre ++ post) st k hk

/-- C1 witness: the malformed candidate `badEx` is skipped and the valid
candidate behind it is still processed. -/
theorem putNodes_validator_gate_c1_witness :
    putNodesLoop cryptoEx vsEx 0 stEx [badEx, goodEx]
      = putNodesLoop cryptoEx vsEx 0 stEx [goodEx] :=
  (putNodes_validator_gate_c1 cryptoEx vsEx 0 stEx [] [goodEx] badEx (by decide)).1

/-- C2: a node table entry that is already resolved is never overwritten by
a later `service.putNodes` call (resolution is write once), while the
health manager is still updated for every valid candidate of the batch. -/
theorem putNodes_write_once_c2 (c : Crypto) (s : service) (cid : Nat)
    (nodes : List CommitteeNode) (k : P2pID) (info : nodeInfo)
    (h : alookup s.nodeTable k = some (some info)) :
    alookup (s.putNodes c cid nodes).nodeTable k = some (some info)
    ∧ ∀ node, node ∈ nodes → candidateValid c s.saValidators node = true →
        (⟨candidateID c node, node.IP, parityPort cid node, node.Publickey⟩ : HealthEvent)
          ∈ (s.putNodes c cid nodes).health := by
  unfold service.putNodes
  by_cases he : nodes.isEmpty
  · constructor
    · simp only [he, if_true]
      exact h
    · intro node hn
      rw [List.isEmpty_iff] at he
      subst he
      cases hn
  · constructor
    · simp only [he, Bool.false_eq_true, if_false]
      exact putNodesLoop_resolved c s.saValidators cid nodes ⟨s.nodeTable, s.health, false⟩ k info h
    · intro node hn hv
      simp only [he, Bool.false_eq_true, if_false]
      exact putNodesLoop_health_valid c s.saValidators cid nodes ⟨s.nodeTable, s.health, false⟩ node hn hv

/-- C2 witness: a batch resubmitting an endpoint for the already resolved
identity [2] leaves the resolved entry intact and still logs the health
update. -/
theorem putNodes_write_once_c2_witness :
    alookup (svC2.putNodes cryptoEx 0 [goodEx]).nodeTable [2] = some (some infoEx)
    ∧ (⟨[2], "1.2.3.4", 30303, 2⟩ : HealthEvent) ∈ (svC2.putNodes cryptoEx 0 [goodEx]).health := by
  have h := putNodes_write_once_c2 cryptoEx svC2 0 [goodEx] [2] infoEx (by decide)
  exact ⟨h.1, h.2 goodEx (List.mem_singleton.mpr rfl) (by decide)⟩

/-- C3: the failing input for the claim that one `updateNodes` pass dials
exactly the unconnected entries whose identity is in the validator set.
On a table holding the nil placeholder of validator 1 ahead of the
resolved, unconnected, authorized entry of validator 2, the pass attempts
no dial at all and panics on the placeholder, although the entry of
validator 2 is eligible (not enabled, hex decodes, address in the set). -/
theorem updateNodes_placeholder_panic_c3 :
    updateNodes cryptoEx vsC3 (fun _ => true) tabC3 = ([], none)
    ∧ entryC3.Enable = false
    ∧ hexDecodeString entryC3.ID = some 2
    ∧ hasAddress cryptoEx vsC3 2 = true := by decide

/-- C4: in `updateNodes` the ID field of an entry is dereferenced by
`hex.DecodeString(string(v.ID))` before the nil guard of the entry is
evaluated, so any table holding a nil placeholder makes the pass panic
(modelled as the `none` table result) instead of skipping the entry; the
`v != nil` conjunct never prevents the dereference. -/
theorem updateNodes_nil_dereference_c4 (c : Crypto) (vs : ValidatorSet)
    (dial : NetAddress → Bool) (tab : List (P2pID × Option nodeInfo)) (k : P2pID)
    (h : (k, (none : Option nodeInfo)) ∈ tab) :
    (updateNodes c vs dial tab).2 = none := by
  induction tab with
  | nil => cases h
  | cons p rest ih =>
    match p with
    | (k1, none) => simp [updateNodes]
    | (k1, some v) =>
      have h2 : (k, (none : Option nodeInfo)) ∈ rest := by
        rcases List.mem_cons.mp h with h3 | h3
        · simp at h3
        · exact h3
      simp [updateNodes, ih h2]

/-- C4 witness: a single placeholder entry makes the pass panic. -/
theorem updateNodes_nil_dereference_c4_witness :
    (updateNodes cryptoEx vsEx (fun _ => true) [([5], none)]).2 = none :=
  updateNodes_nil_dereference_c4 cryptoEx vsEx (fun _ => true) [([5], none)] [5]
    (List.mem_singleton.mpr rfl)

/-- A registration with an id, a non empty member list and a fresh id
always succeeds and stores a service whose node table is the seeding loop
result. -/
theorem putCommittee_ok_shape (env : Env) (n : Node) (cmm : CommitteeInfo) (i : Nat)
    (hid : cmm.Id = some i) (hmem : cmm.Members ≠ [])
    (hfresh : alookup n.services i = none) :
    ∃ sv, Node.PutCommittee env n cmm = .ok { n with services := ainsert n.services i sv }
      ∧ sv.nodeTable = buildTab env.crypto cmm.Members [] := by
  have hne : cmm.Members.isEmpty = false := by
    cases hm : cmm.Members
    · exact absurd hm hmem
    · rfl
  have hvals : MakeValidators cmm
      = some (cmm.Members.map fun m => (⟨m.Publickey, 1⟩ : Validator)) := by
    unfold MakeValidators
    rw [hid]
    simp [hne]
  have htab : makeCommitteeMembers env.crypto i cmm
      = some (buildTab env.crypto cmm.Members []) := by
    unfold makeCommitteeMembers
    simp [hne]
  unfold Node.PutCommittee
  rw [hid]
  simp only [hne, Bool.false_eq_true, if_false, hfresh, Option.isSome_none, hvals, htab]
  exact ⟨_, rfl, rfl⟩

/-- A registration with a missing id or an empty member list is rejected
with the wrong params error. -/
theorem putCommittee_wrongParams (env : Env) (n : Node) (cmm : CommitteeInfo)
    (h : cmm.Id = none ∨ cmm.Members = []) :
    Node.PutCommittee env n cmm = .error .wrongParams := by
  unfold Node.PutCommittee
  rcases h with hnone | hemp
  · rw [hnone]
  · cases hid : cmm.Id with
    | none => rfl
    | some i => simp [hemp]

/-- C5 counterexample: registering the three member committee `cmmC5`, one
member of which is the local node, yields a node table with three
placeholder entries, not two: `makeCommitteeMembers` does not exclude the
local node. -/
theorem putCommittee_self_included_counterexample_c5 :
    (match Node.PutCommittee envEx nodeC5 cmmC5 with
     | .ok n1 => (alookup n1.services 7).map (fun sv => sv.nodeTable.length)
     | .error _ => none) = some 3
    ∧ (match Node.PutCommittee envEx nodeC5 cmmC5 with
       | .ok n1 => (alookup n1.services 7).map (fun sv => sv.nodeTable.length)
       | .error _ => none) ≠ some 2 := by decide

/-- C5 amended: for every accepted committee descriptor whose member
identities are pairwise distinct, `PutCommittee` seeds the new service
node table with exactly one placeholder entry per active member including
the local node (self is excluded only from the work health seeding); a
committee of 3 members of which one is self therefore yields 3
placeholder entries. -/
theorem putCommittee_seeds_all_members_c5 (env : Env) (n : Node)
    (cmm : CommitteeInfo) (i : Nat)
    (hid : cmm.Id = some i) (hmem : cmm.Members ≠ [])
    (hfresh : alookup n.services i = none)
    (hnd : (cmm.Members.map (memberID env.crypto)).Nodup) :
    ∃ sv, Node.PutCommittee env n cmm = .ok { n with services := ainsert n.services i sv }
      ∧ sv.nodeTable = cmm.Members.map (fun m => (memberID env.crypto m, none))
      ∧ sv.nodeTable.length = cmm.Members.length := by
  have hbuild : buildTab env.crypto cmm.Members []
      = cmm.Members.map (fun m => (memberID env.crypto m, none)) := by
    have hb := buildTab_eq env.crypto cmm.Members [] (fun m _ => rfl) hnd
    simpa using hb
  obtain ⟨sv, hok, htab⟩ := putCommittee_ok_shape env n cmm i hid hmem hfresh
  refine ⟨sv, hok, ?_, ?_⟩
  · rw [htab]
    exact hbuild
  · rw [htab, hbuild]
    exact List.length_map _ _

/-- C5 amended witness: the committee `cmmC5` (members 1, 2, 3 with local
key 1) is registered with the three placeholders [1], [2], [3]. -/
theorem putCommittee_seeds_all_members_c5_witness :
    (match Node.PutCommittee envEx nodeC5 cmmC5 with
     | .ok n1 => (alookup n1.services 7).map (fun sv => sv.nodeTable)
     | .error _ => none) = some [([1], none), ([2], none), ([3], none)] := by
  obtain ⟨sv, hok, htab, _⟩ :=
    putCommittee_seeds_all_members_c5 envEx nodeC5 cmmC5 7 (by decide) (by decide)
      (by decide) (by decide)
  rw [hok]
  simp only [alookup_ainsert_self, Option.map_some', htab]
  decide

/-- C6 counterexample: a single member committee whose only member is the
local node is not rejected: `PutCommittee` succeeds, registers the
service, and seeds a one entry node table holding the local node itself
(only the work health seeding excluded self, hence the 0). -/
theorem putCommittee_single_self_succeeds_counterexample_c6 :
    (match Node.PutCommittee envEx nodeC5 cmmC6 with
     | .ok n1 => (alookup n1.services 3).map (fun sv => (sv.nodeTable.length, sv.workHealth.length))
     | .error _ => none) = some (1, 0) := by decide

/-- C6 amended: placeholder seeding yields no table only for an empty
member list, which `PutCommittee` already rejects as an invalid argument
before any service is constructed; the construction failure rollback path
(the nil CommitteeMembers error after stopping the half built service) is
unreachable. -/
theorem putCommittee_empty_members_rejected_c6 :
    (∀ (env : Env) (n : Node) (cmm : CommitteeInfo), cmm.Members = [] →
       Node.PutCommittee env n cmm = .error .wrongParams)
    ∧ ∀ (env : Env) (n : Node) (cmm : CommitteeInfo),
        Node.PutCommittee env n cmm ≠ .error .nilCommitteeMembers := by
  constructor
  · intro env n cmm hm
    exact putCommittee_wrongParams env n cmm (Or.inr hm)
  · intro env n cmm h
    unfold Node.PutCommittee at h
    cases hid : cmm.Id with
    | none =>
      rw [hid] at h
      simp at h
    | some i =>
      rw [hid] at h
      cases hm : cmm.Members.isEmpty with
      | true => simp [hm] at h
      | false =>
        simp only [hm, Bool.false_eq_true, if_false] at h
        cases hdup : (alookup n.services i).isSome with
        | true => simp [hdup] at h
        | false =>
          simp only [hdup, Bool.false_eq_true, if_false] at h
          have hvals : MakeValidators cmm
              = some (cmm.Members.map fun m => (⟨m.Publickey, 1⟩ : Validator)) := by
            unfold MakeValidators
            rw [hid]
            simp [hm]
          have htab : makeCommitteeMembers env.crypto i cmm
              = some (buildTab env.crypto cmm.Members []) := by
            unfold makeCommitteeMembers
            simp [hm]
          rw [hvals, htab] at h
          simp at h

/-- C6 amended witness: an empty member list is rejected as wrong params,
and the single member self committee never hits the rollback error. -/
theorem putCommittee_empty_members_rejected_c6_witness :
    Node.PutCommittee envEx nodeC5 ⟨some 9, 0, [], []⟩ = .error .wrongParams
    ∧ Node.PutCommittee envEx nodeC5 cmmC6 ≠ .error .nilCommitteeMembers :=
  ⟨putCommittee_empty_members_rejected_c6.1 envEx nodeC5 ⟨some 9, 0, [], []⟩ rfl,
   putCommittee_empty_members_rejected_c6.2 envEx nodeC5 cmmC6⟩

/-- C7: for a valid descriptor with an id not yet registered, the first
`PutCommittee` succeeds and a second identical call returns the duplicate
id error while the registry still holds exactly one service for the id;
and a descriptor with a missing id or an empty member list is rejected
with the invalid argument error and registers nothing. -/
theorem putCommittee_duplicate_c7 (env : Env) (n : Node) (cmm : CommitteeInfo) (i : Nat)
    (hid : cmm.Id = some i) (hmem : cmm.Members ≠ [])
    (hfresh : alookup n.services i = none) :
    (∃ n1, Node.PutCommittee env n cmm = .ok n1
        ∧ Node.PutCommittee env n1 cmm = .error (.repeatID i)
        ∧ acount n1.services i = 1)
    ∧ ∀ cmm2, (cmm2.Id = none ∨ cmm2.Members = []) →
        Node.PutCommittee env n cmm2 = .error .wrongParams := by
  have hne : cmm.Members.isEmpty = false := by
    cases hm : cmm.Members
    · exact absurd hm hmem
    · rfl
  obtain ⟨sv, hok, _⟩ := putCommittee_ok_shape env n cmm i hid hmem hfresh
  constructor
  · refine ⟨_, hok, ?_, ?_⟩
    · unfold Node.PutCommittee
      rw [hid]
      simp [hne, alookup_ainsert_self]
    · exact acount_ainsert_fresh _ _ _ hfresh
  · intro cmm2 h2
    exact putCommittee_wrongParams env n cmm2 h2

/-- C7 witness: registering `cmmC5` twice on the empty registry. -/
theorem putCommittee_duplicate_c7_witness :
    (match Node.PutCommittee envEx nodeC5 cmmC5 with
     | .ok n1 => some (Node.PutCommittee envEx n1 cmmC5, acount n1.services 7)
     | .error _ => none) = some (Except.error (.repeatID 7), 1) := by
  obtain ⟨⟨n1, h1, h2, h3⟩, _⟩ :=
    putCommittee_duplicate_c7 envEx nodeC5 cmmC5 7 (by decide) (by decide) (by decide)
  rw [h1]
  simp [h2, h3]

/-- C8: the failing input for the claim that `Notify(id, Start)` returns
the first start error of the service. The start of committee 7 fails (the
event bus, respectively the transport switch, fails to start and
`service.start` reports the error), yet `Notify` ignores the return value
of `server.start` and answers success. -/
theorem notify_start_discards_error_c8 :
    (service.start cryptoEx 1 7 svBusFail).2 = some .eventBusStartFailed
    ∧ (service.start cryptoEx 1 7 svSwFail).2 = some .transportStartFailed
    ∧ exceptIsOk (Node.Notify cryptoEx nBusFail 7 Start) = true
    ∧ exceptIsOk (Node.Notify cryptoEx nSwFail 7 Start) = true := by decide

/-- C9: for an id absent from the registry, `Notify(id, Stop)` is a no op
returning success while `Notify(id, Start)` returns the unknown committee
error; for an id present in the registry, `Notify(id, Stop)` stops the
service and removes the id from the registry. -/
theorem notify_semantics_c9 (c : Crypto) (n : Node) (i : Nat) :
    (alookup n.services i = none →
       Node.Notify c n i Stop = .ok n
       ∧ Node.Notify c n i Start = .error (.wrongCommitteeID i))
    ∧ ∀ sv, alookup n.services i = some sv →
        Node.Notify c n i Stop
          = .ok { n with services := aerase n.services i, stopped := n.stopped ++ [i] }
        ∧ alookup (aerase n.services i) i = none := by
  constructor
  · intro h
    constructor
    · simp [Node.Notify, Start, Stop, h]
    · simp [Node.Notify, Start, h]
  · intro sv h
    constructor
    · simp [Node.Notify, Start, Stop, h]
    · exact alookup_aerase_self _ _

/-- C9 witness: on the registry holding only committee 4, stop of the
absent committee 9 is a silent no op, start of committee 9 errors, and
stop of committee 4 removes it. -/
theorem notify_semantics_c9_witness :
    (Node.Notify cryptoEx nC9 9 Stop = .ok nC9
     ∧ Node.Notify cryptoEx nC9 9 Start = .error (.wrongCommitteeID 9))
    ∧ Node.Notify cryptoEx nC9 4 Stop
        = .ok { nC9 with services := aerase nC9.services 4, stopped := nC9.stopped ++ [4] } := by
  refine ⟨(notify_semantics_c9 cryptoEx nC9 9).1 (by decide), ?_⟩
  exact ((notify_semantics_c9 cryptoEx nC9 4).2 svBase (by decide)).1

/-- C10 counterexample: after `UpdateCommittee` with a descriptor whose
consensus state update signals a stop, the service of committee 7 is
stopped but remains registered, and `GetCommitteeStatus 7` still reports a
committee_now section for it — the claim that the id no longer appears
there fails. -/
theorem updateCommittee_registry_retained_counterexample_c10 :
    (match Node.UpdateCommittee cryptoEx true nC10 cmmC10 with
     | some (.ok n1) =>
       some ((alookup n1.services 7).map (fun sv => sv.running),
             (n1.GetCommitteeStatus 7).committeeNow.isSome)
     | _ => none) = some (some false, true) := by decide

/-- C10 amended: for a live committee service, an `UpdateCommittee` call
whose consensus state update returns the stop signal stops the service,
but the id stays in the registry and the committee still appears in the
committee_now section of subsequent `GetCommitteeStatus` results; only
`Notify(id, Stop)` removes it. -/
theorem updateCommittee_stop_keeps_entry_c10 (c : Crypto) (n : Node)
    (cmm : CommitteeInfo) (i : Nat) (sv : service)
    (hid : cmm.Id = some i) (hsv : alookup n.services i = some sv)
    (hrun : sv.running = true) :
    ∃ n1 sv1, Node.UpdateCommittee c true n cmm = some (.ok n1)
      ∧ alookup n1.services i = some sv1
      ∧ sv1.running = false
      ∧ (n1.GetCommitteeStatus i).committeeNow
          = some ⟨i, sv1.nodeTable, some sv1.nodeTable.length⟩ := by
  unfold Node.UpdateCommittee
  rw [hid]
  simp only [hsv]
  refine ⟨_, _, rfl, alookup_ainsert_self _ _ _, ?_, ?_⟩
  · simp [UpdateValidatorSet, service_stop_running]
  · simp [Node.GetCommitteeStatus, getCommittee, alookup_ainsert_self]

/-- C10 amended witness: the live committee 7 of `nC10`, updated with the
stop signal, is stopped, still registered, and still reported. -/
theorem updateCommittee_stop_keeps_entry_c10_witness :
    (match Node.UpdateCommittee cryptoEx true nC10 cmmC10 with
     | some (.ok n1) =>
       some ((n1.GetCommitteeStatus 7).committeeNow.isSome,
             (alookup n1.services 7).map (fun sv => sv.running))
     | _ => none) = some (true, some false) := by
  obtain ⟨n1, sv1, h1, h2, h3, h4⟩ :=
    updateCommittee_stop_keeps_entry_c10 cryptoEx nC10 cmmC10 7 svC10 rfl (by decide) (by decide)
  rw [h1]
  simp [h2, h3, h4]

end Tbft
